import Mathlib

/-!
Verification development for the flight price monitoring repository
(`price_comparison_analysis.py`).

The snapshot comparison and aggregation engine is shallowly embedded here:
a snapshot is a list of price observations, `compare_snapshots` is the
pandas inner merge on the four key columns (a full, non-deduplicating
equality join), `pd.cut` becomes `cutChange`, and the two group-by
aggregations become `analyze_ota_changes` / `analyze_route_changes`.

Numeric modelling: prices are embedded as rationals (`ℚ`).  The IEEE
special values that `change_pct` can take when `price_eur_old = 0`
(`+inf`, `-inf`, `NaN`) are modelled explicitly by the `PVal` type, and
the pandas conventions (NaN-skipping group means, NaN results of
`pd.cut` outside the bins, NaN sample standard deviation of a
one-element group) are carried through faithfully.  `pandas.round(2)`
(numpy round-half-to-even) becomes `round2`, and the rounded square root
used for the displayed standard deviation is modelled by an exact
nearest-integer square root (`rhesqrt`).
-/

/-- One row of a snapshot table (`all_routes.csv` plus the merge columns
used by `compare_snapshots`): `origin`, `destination`, `depart_date`,
`gate` and `price_eur`. -/
structure Obs where
  origin : String
  destination : String
  depart_date : String
  gate : String
  price_eur : ℚ
deriving DecidableEq, Repr

/-- The flight identity key used by the merge:
`(origin, destination, depart_date, gate)`. -/
abbrev FlightKey := String × String × String × String

def Obs.key (o : Obs) : FlightKey :=
  (o.origin, o.destination, o.depart_date, o.gate)

/-- Value of a floating point cell: a finite rational, `+inf`, `-inf`
or `NaN`.  This models the IEEE values `change_pct` can take. -/
inductive PVal where
  | fin (q : ℚ)
  | posInf
  | negInf
  | nan
deriving DecidableEq, Repr

def PVal.isNan : PVal → Bool
  | .nan => true
  | _ => false

def PVal.isPosInf : PVal → Bool
  | .posInf => true
  | _ => false

def PVal.isNegInf : PVal → Bool
  | .negInf => true
  | _ => false

/-- IEEE semantics of `(diff / old) * 100` for finite rational inputs:
division by zero produces a signed infinity (or NaN for `0/0`),
otherwise the exact rational value. -/
def changePctOf (diff old : ℚ) : PVal :=
  if old = 0 then
    if 0 < diff then .posInf
    else if diff < 0 then .negInf
    else .nan
  else .fin (diff / old * 100)

/-- The five labels of the `pd.cut` binning in `compare_snapshots`. -/
inductive Bucket where
  | majorDrop
  | minorDrop
  | stable
  | minorIncrease
  | majorIncrease
deriving DecidableEq, Repr

/-- `pd.cut(x, bins=[-inf, -5, -1, 1, 5, inf], labels=...)` applied to a
single value: intervals are left-open and right-closed, a value equal to
the lowest bin edge (here `-inf` itself) falls outside all bins, and
`NaN` input yields the missing category (`none`). -/
def cutChange : PVal → Option Bucket
  | .nan => none
  | .negInf => none
  | .posInf => some .majorIncrease
  | .fin q =>
    if q ≤ -5 then some .majorDrop
    else if q ≤ -1 then some .minorDrop
    else if q ≤ 1 then some .stable
    else if q ≤ 5 then some .minorIncrease
    else some .majorIncrease

/-- One row of the merged comparison table produced by
`compare_snapshots`: the four key columns, both prices, `price_diff`,
`change_pct`, the `route` string and the `change_type` bucket. -/
structure DeltaRecord where
  origin : String
  destination : String
  depart_date : String
  gate : String
  price_eur_new : ℚ
  price_eur_old : ℚ
  price_diff : ℚ
  change_pct : PVal
  route : String
  change_type : Option Bucket
deriving DecidableEq, Repr

def DeltaRecord.key (d : DeltaRecord) : FlightKey :=
  (d.origin, d.destination, d.depart_date, d.gate)

/-- The merged row built from one `newer` row `r2` and one matching
`older` row `r1` (lines 88-98 of the source). -/
def mkDelta (r2 r1 : Obs) : DeltaRecord :=
  let diff := r2.price_eur - r1.price_eur
  { origin := r2.origin
    destination := r2.destination
    depart_date := r2.depart_date
    gate := r2.gate
    price_eur_new := r2.price_eur
    price_eur_old := r1.price_eur
    price_diff := diff
    change_pct := changePctOf diff r1.price_eur
    route := r2.origin ++ " → " ++ r2.destination
    change_type := cutChange (changePctOf diff r1.price_eur) }

/-- `compare_snapshots(date1, date2)` on already-loaded tables: the
pandas inner merge of `df2` (newer, left side) against `df1` (older) on
the four key columns.  For each left row, in order, one output row per
matching right row — a full non-deduplicating equality join. -/
def compare_snapshots (df1 df2 : List Obs) : List DeltaRecord :=
  df2.flatMap fun r2 =>
    (df1.filter fun r1 => decide (r1.key = r2.key)).map (mkDelta r2)

example :
    compare_snapshots
      [⟨"BCN", "MAD", "2025-07-01", "AgentX", 80⟩]
      [⟨"BCN", "MAD", "2025-07-01", "AgentX", 84⟩] =
    [{ origin := "BCN", destination := "MAD", depart_date := "2025-07-01",
       gate := "AgentX", price_eur_new := 84, price_eur_old := 80,
       price_diff := 4, change_pct := .fin 5, route := "BCN → MAD",
       change_type := some .minorIncrease }] := by
  norm_num [compare_snapshots, mkDelta, changePctOf, cutChange, Obs.key]
  rfl

/-! ### Aggregation: `analyze_ota_changes` and `analyze_route_changes` -/

/-- Round half to even (the numpy rounding used by `pandas.round`):
nearest integer to `x`, ties going to the even integer. -/
def rhe (x : ℚ) : ℤ :=
  if x - ⌊x⌋ < 1 / 2 then ⌊x⌋
  else if 1 / 2 < x - ⌊x⌋ then ⌊x⌋ + 1
  else if ⌊x⌋ % 2 = 0 then ⌊x⌋ else ⌊x⌋ + 1

/-- `pandas.round(2)` on a finite value: round half to even at the
second decimal. -/
def round2 (x : ℚ) : ℚ := (rhe (100 * x) : ℚ) / 100

/-- `pandas.round(2)` on a float cell: infinities and NaN are
unchanged. -/
def round2P : PVal → PVal
  | .fin q => .fin (round2 q)
  | p => p

/-- Nearest integer to `√w` (for `w ≥ 0`), ties to even: the exact
value whose division by 100 models the displayed two-decimal rounding
of a square root. -/
def rhesqrt (w : ℚ) : ℤ :=
  if 4 * w < ((2 * Nat.sqrt ⌊w⌋.toNat + 1 : ℕ) : ℚ) ^ 2 then
    Nat.sqrt ⌊w⌋.toNat
  else if ((2 * Nat.sqrt ⌊w⌋.toNat + 1 : ℕ) : ℚ) ^ 2 < 4 * w then
    Nat.sqrt ⌊w⌋.toNat + 1
  else if Nat.sqrt ⌊w⌋.toNat % 2 = 0 then Nat.sqrt ⌊w⌋.toNat
  else Nat.sqrt ⌊w⌋.toNat + 1

/-- `round(√v, 2)`: the displayed standard deviation value. -/
def round2sqrt (v : ℚ) : ℚ := (rhesqrt (10000 * v) : ℚ) / 100

/-- Mean of a list of rationals (`sum / len`). -/
def meanQ (l : List ℚ) : ℚ := l.sum / l.length

/-- Sample variance (`ddof = 1`, the pandas `std` default squared):
`Σ (x - mean)² / (n - 1)`. -/
def svar (l : List ℚ) : ℚ :=
  (l.map fun x => (x - meanQ l) ^ 2).sum / ((l.length : ℚ) - 1)

/-- The finite entries of a float column. -/
def finPart (l : List PVal) : List ℚ :=
  l.filterMap fun p =>
    match p with
    | .fin q => some q
    | _ => none

/-- Pandas group `mean` of a float column: NaN entries are skipped; a
group whose non-NaN part is empty has mean NaN; an infinity dominates
the sum (and opposite infinities give NaN). -/
def meanP (l : List PVal) : PVal :=
  let nn := l.filter fun p => !p.isNan
  if nn.length = 0 then .nan
  else if nn.any (·.isPosInf) then
    (if nn.any (·.isNegInf) then .nan else .posInf)
  else if nn.any (·.isNegInf) then .negInf
  else .fin ((finPart l).sum / nn.length)

/-- Pandas group `min` of a float column (NaN skipped). -/
def minP (l : List PVal) : PVal :=
  let nn := l.filter fun p => !p.isNan
  if nn.length = 0 then .nan
  else if nn.any (·.isNegInf) then .negInf
  else
    match finPart l with
    | [] => .posInf
    | x :: xs => .fin (xs.foldl min x)

/-- Pandas group `max` of a float column (NaN skipped). -/
def maxP (l : List PVal) : PVal :=
  let nn := l.filter fun p => !p.isNan
  if nn.length = 0 then .nan
  else if nn.any (·.isPosInf) then .posInf
  else
    match finPart l with
    | [] => .negInf
    | x :: xs => .fin (xs.foldl max x)

/-- The `pricing_strategy` lambda of `analyze_ota_changes` (lines
128-134), applied to the rounded group mean.  On IEEE specials every
comparison with NaN is false, so NaN falls through to the final
else-branch, `+inf` takes the first branch and `-inf` the last. -/
def pricing_strategy : PVal → String
  | .posInf => "Aggressive Increase"
  | .negInf => "Aggressive Decrease"
  | .nan => "Aggressive Decrease"
  | .fin x =>
    if 5 < x then "Aggressive Increase"
    else if 1 < x then "Moderate Increase"
    else if |x| ≤ 1 then "Stable"
    else if -5 < x then "Moderate Decrease"
    else "Aggressive Decrease"

/-- One row of the `analyze_ota_changes` output table. -/
structure AgentRow where
  gate : String
  total_flights : ℕ
  avg_price_diff : ℚ
  std_price_diff : Option ℚ
  avg_change_pct : PVal
  min_change_pct : PVal
  max_change_pct : PVal
  avg_current_price : ℚ
  pricing_strategy : String
deriving DecidableEq, Repr

/-- One row of the `analyze_route_changes` output table. -/
structure RouteRow where
  route : String
  total_flights : ℕ
  avg_price_diff : ℚ
  std_price_diff : Option ℚ
  avg_change_pct : PVal
  min_change_pct : PVal
  max_change_pct : PVal
  num_otas : ℕ
deriving DecidableEq, Repr

/-- The aggregated row for one agent group `g` (the `.agg` dictionary,
`.round(2)` and the strategy column of lines 115-134).  `none` for the
standard deviation models the NaN that the pandas sample standard
deviation produces on a group of fewer than two rows. -/
def mkAgentRow (a : String) (g : List DeltaRecord) : AgentRow :=
  let diffs := g.map (·.price_diff)
  let pcts := g.map (·.change_pct)
  let avgPct := round2P (meanP pcts)
  { gate := a
    total_flights := diffs.length
    avg_price_diff := round2 (meanQ diffs)
    std_price_diff :=
      if diffs.length < 2 then none else some (round2sqrt (svar diffs))
    avg_change_pct := avgPct
    min_change_pct := round2P (minP pcts)
    max_change_pct := round2P (maxP pcts)
    avg_current_price := round2 (meanQ (g.map (·.price_eur_new)))
    pricing_strategy := pricing_strategy avgPct }

/-- The aggregated row for one route group `g` (lines 148-158);
`num_otas` is `gate.nunique`. -/
def mkRouteRow (rt : String) (g : List DeltaRecord) : RouteRow :=
  let diffs := g.map (·.price_diff)
  let pcts := g.map (·.change_pct)
  { route := rt
    total_flights := diffs.length
    avg_price_diff := round2 (meanQ diffs)
    std_price_diff :=
      if diffs.length < 2 then none else some (round2sqrt (svar diffs))
    avg_change_pct := round2P (meanP pcts)
    min_change_pct := round2P (minP pcts)
    max_change_pct := round2P (maxP pcts)
    num_otas := (g.map (·.gate)).dedup.length }

/-- Rank used to order float cells for the final
`sort_values('avg_change_pct', ascending=False)`: NaN sorts after
everything (`na_position='last'`), infinities at the extremes. -/
def pvRank : PVal → ℕ
  | .nan => 0
  | .negInf => 1
  | .fin _ => 2
  | .posInf => 3

def pvVal : PVal → ℚ
  | .fin q => q
  | _ => 0

/-- `p` may appear at or before `q` in the descending output. -/
def descLe (p q : PVal) : Bool :=
  pvRank q < pvRank p || (pvRank p == pvRank q && pvVal q ≤ pvVal p)

def agentOrder (a b : AgentRow) : Prop :=
  descLe a.avg_change_pct b.avg_change_pct = true

instance : DecidableRel agentOrder := fun _ _ => instDecidableEqBool _ _

def routeOrder (a b : RouteRow) : Prop :=
  descLe a.avg_change_pct b.avg_change_pct = true

instance : DecidableRel routeOrder := fun _ _ => instDecidableEqBool _ _

/-- The sorted, deduplicated group keys of a pandas `groupby` (its
default `sort=True` returns groups in ascending key order). -/
def groupKeys (l : List String) : List String :=
  l.dedup.insertionSort (· ≤ ·)

/-- `analyze_ota_changes`: group the comparison table by `gate`,
aggregate, round, attach the strategy label and sort by
`avg_change_pct` descending.  The final sort is modelled by a stable
insertion sort; the source's `sort_values` uses numpy's unstable
quicksort, so the relative order of rows with equal `avg_change_pct` is
not a faithful part of this model. -/
def analyze_ota_changes (ds : List DeltaRecord) : List AgentRow :=
  ((groupKeys (ds.map (·.gate))).map fun a =>
      mkAgentRow a (ds.filter fun d => decide (d.gate = a))).insertionSort
    agentOrder

/-- `analyze_route_changes`: the same aggregation grouped by the
`route` string (no strategy column). -/
def analyze_route_changes (ds : List DeltaRecord) : List RouteRow :=
  ((groupKeys (ds.map (·.route))).map fun rt =>
      mkRouteRow rt (ds.filter fun d => decide (d.route = rt))).insertionSort
    routeOrder

/-- Number of snapshot rows carrying the key `k`. -/
def obsKeyCount (k : FlightKey) (l : List Obs) : ℕ :=
  (l.filter fun r => decide (r.key = k)).length

/-- Number of merged rows carrying the key `k`. -/
def deltaKeyCount (k : FlightKey) (l : List DeltaRecord) : ℕ :=
  (l.filter fun d => decide (d.key = k)).length

/-! ### Helper lemmas -/

theorem mkDelta_key (r2 r1 : Obs) : (mkDelta r2 r1).key = r2.key := rfl

theorem mem_analyze_ota {ds : List DeltaRecord} {r : AgentRow}
    (hr : r ∈ analyze_ota_changes ds) :
    ∃ a, a ∈ ds.map (·.gate) ∧
      r = mkAgentRow a (ds.filter fun d => decide (d.gate = a)) := by
  rw [analyze_ota_changes, (List.perm_insertionSort agentOrder _).mem_iff,
    List.mem_map] at hr
  obtain ⟨a, ha, rfl⟩ := hr
  refine ⟨a, ?_, rfl⟩
  have := (List.perm_insertionSort (α := String) (· ≤ ·) _).mem_iff.mp ha
  exact (List.mem_dedup).mp (by simpa [groupKeys] using this)

theorem mem_analyze_route {ds : List DeltaRecord} {r : RouteRow}
    (hr : r ∈ analyze_route_changes ds) :
    ∃ rt, rt ∈ ds.map (·.route) ∧
      r = mkRouteRow rt (ds.filter fun d => decide (d.route = rt)) := by
  rw [analyze_route_changes, (List.perm_insertionSort routeOrder _).mem_iff,
    List.mem_map] at hr
  obtain ⟨rt, ha, rfl⟩ := hr
  refine ⟨rt, ?_, rfl⟩
  have := (List.perm_insertionSort (α := String) (· ≤ ·) _).mem_iff.mp ha
  exact (List.mem_dedup).mp (by simpa [groupKeys] using this)

/-! ### Concrete fixtures -/

/-- Older snapshot row: `BCN→MAD`, `2025-07-01`, `AgentX`, €100. -/
def obsOldX : Obs := ⟨"BCN", "MAD", "2025-07-01", "AgentX", 100⟩

/-- Newer snapshot row with the same key at €95 (−5 %). -/
def obsNewX : Obs := ⟨"BCN", "MAD", "2025-07-01", "AgentX", 95⟩

/-- The single merged row of `compare_snapshots [obsOldX] [obsNewX]`. -/
def dX : DeltaRecord :=
  { origin := "BCN", destination := "MAD", depart_date := "2025-07-01",
    gate := "AgentX", price_eur_new := 95, price_eur_old := 100,
    price_diff := -5, change_pct := .fin (-5), route := "BCN → MAD",
    change_type := some .majorDrop }

/-- The single agent summary row of `analyze_ota_changes [dX]`. -/
def rowX : AgentRow :=
  { gate := "AgentX", total_flights := 1, avg_price_diff := -5,
    std_price_diff := none, avg_change_pct := .fin (-5),
    min_change_pct := .fin (-5), max_change_pct := .fin (-5),
    avg_current_price := 95, pricing_strategy := "Aggressive Decrease" }

/-- The single route summary row of `analyze_route_changes [dX]`. -/
def routeRowX : RouteRow :=
  { route := "BCN → MAD", total_flights := 1, avg_price_diff := -5,
    std_price_diff := none, avg_change_pct := .fin (-5),
    min_change_pct := .fin (-5), max_change_pct := .fin (-5),
    num_otas := 1 }

theorem compare_single_eval : compare_snapshots [obsOldX] [obsNewX] = [dX] := by
  norm_num [compare_snapshots, mkDelta, changePctOf, cutChange, Obs.key,
    obsOldX, obsNewX, dX]
  rfl

theorem analyze_ota_single_eval : analyze_ota_changes [dX] = [rowX] := by
  simp only [analyze_ota_changes, groupKeys, dX, List.map_cons, List.map_nil,
    List.dedup_nil, List.dedup_cons_of_not_mem, List.not_mem_nil, not_false_iff,
    List.insertionSort, List.orderedInsert, List.filter, mkAgentRow]
  norm_num [meanP, meanQ, minP, maxP, finPart, round2P, round2, rhe,
    pricing_strategy, PVal.isNan, PVal.isPosInf, PVal.isNegInf, svar,
    List.filterMap_cons, List.filterMap_nil, Int.fract, rowX]

theorem analyze_route_single_eval : analyze_route_changes [dX] = [routeRowX] := by
  simp only [analyze_route_changes, groupKeys, dX, List.map_cons, List.map_nil,
    List.dedup_nil, List.dedup_cons_of_not_mem, List.not_mem_nil, not_false_iff,
    List.insertionSort, List.orderedInsert, List.filter, mkRouteRow]
  norm_num [meanP, meanQ, minP, maxP, finPart, round2P, round2, rhe,
    PVal.isNan, PVal.isPosInf, PVal.isNegInf, svar,
    List.filterMap_cons, List.filterMap_nil, Int.fract, routeRowX, List.dedup]

/-- Older snapshot row whose price is exactly zero (same key as
`zNewSame`/`zNewPos`). -/
def zOld : Obs := ⟨"IST", "NRT", "2025-08-10", "AgentY", 0⟩

/-- Newer row, also priced zero: `change_pct` is `0/0`, i.e. NaN. -/
def zNewSame : Obs := ⟨"IST", "NRT", "2025-08-10", "AgentY", 0⟩

/-- Newer row priced €50: `change_pct` is `50/0`, i.e. `+inf`. -/
def zNewPos : Obs := ⟨"IST", "NRT", "2025-08-10", "AgentY", 50⟩

/-! ### Claim theorems -/

/-- C1: `compare_snapshots` is a full, non-deduplicating inner equality
join on the FlightKey: for every key `k`, the number of output rows
with key `k` is (occurrences of `k` in the newer table) × (occurrences
of `k` in the older table); in particular a key present on only one
side contributes no row, and duplicates fan out multiplicatively. -/
theorem c1_inner_join_fanout (df1 df2 : List Obs) (k : FlightKey) :
    deltaKeyCount k (compare_snapshots df1 df2) =
      obsKeyCount k df2 * obsKeyCount k df1 := by
  have hhead : ∀ r2 : Obs,
      deltaKeyCount k
          ((df1.filter fun r1 => decide (r1.key = r2.key)).map (mkDelta r2)) =
        if r2.key = k then obsKeyCount k df1 else 0 := by
    intro r2
    by_cases hk : r2.key = k
    · subst hk
      rw [if_pos rfl]
      rw [deltaKeyCount, List.filter_map]
      rw [List.filter_eq_self.mpr fun d _ => by simp [Function.comp, mkDelta_key]]
      simp [obsKeyCount]
    · rw [if_neg hk]
      rw [deltaKeyCount, List.filter_map]
      rw [List.filter_eq_nil_iff.mpr fun d _ => by simp [Function.comp, mkDelta_key, hk]]
      simp
  induction df2 with
  | nil => simp [compare_snapshots, deltaKeyCount, obsKeyCount]
  | cons r2 rest ih =>
    have hsplit :
        compare_snapshots df1 (r2 :: rest) =
          ((df1.filter fun r1 => decide (r1.key = r2.key)).map (mkDelta r2)) ++
            compare_snapshots df1 rest := by
      simp [compare_snapshots]
    rw [hsplit]
    have happ : ∀ l1 l2 : List DeltaRecord,
        deltaKeyCount k (l1 ++ l2) = deltaKeyCount k l1 + deltaKeyCount k l2 := by
      intro l1 l2
      simp [deltaKeyCount]
    rw [happ, hhead r2, ih]
    by_cases hk : r2.key = k
    · simp only [obsKeyCount, List.filter_cons, hk]
      simp only [decide_eq_true_eq]
      rw [if_pos trivial]
      simp [List.length_cons]
      ring
    · simp only [obsKeyCount, List.filter_cons]
      simp [hk]

/-- C2: on real (finite, non-NaN) inputs the classifier is total and
assigns exactly one bucket, with boundaries inclusive on the lower
bucket: ≤ −5 Major Drop, (−5, −1] Minor Drop, (−1, 1] Stable, (1, 5]
Minor Increase, > 5 Major Increase; the boundary value 5 lands in Minor
Increase.  Determinism is immediate because `cutChange` is a function
of its argument. -/
theorem c2_classifier_boundaries (q : ℚ) :
    (cutChange (.fin q)).isSome = true ∧
    (cutChange (.fin q) = some .majorDrop ↔ q ≤ -5) ∧
    (cutChange (.fin q) = some .minorDrop ↔ -5 < q ∧ q ≤ -1) ∧
    (cutChange (.fin q) = some .stable ↔ -1 < q ∧ q ≤ 1) ∧
    (cutChange (.fin q) = some .minorIncrease ↔ 1 < q ∧ q ≤ 5) ∧
    (cutChange (.fin q) = some .majorIncrease ↔ 5 < q) ∧
    cutChange (.fin 5) = some .minorIncrease := by
  refine ⟨?_, ?_, ?_, ?_, ?_, ?_, ?_⟩ <;>
    simp only [cutChange] <;>
    split_ifs <;>
    simp_all <;>
    (intros; linarith)

/-- C4: every row of the comparison table satisfies
`price_diff = price_eur_new − price_eur_old` exactly, and whenever
`price_eur_old ≠ 0` also
`change_pct = price_diff / price_eur_old * 100` exactly. -/
theorem c4_delta_arithmetic (df1 df2 : List Obs) (d : DeltaRecord)
    (hd : d ∈ compare_snapshots df1 df2) :
    d.price_diff = d.price_eur_new - d.price_eur_old ∧
      (d.price_eur_old ≠ 0 →
        d.change_pct = .fin (d.price_diff / d.price_eur_old * 100)) := by
  rw [compare_snapshots, List.mem_flatMap] at hd
  obtain ⟨r2, _, hd⟩ := hd
  rw [List.mem_map] at hd
  obtain ⟨r1, _, rfl⟩ := hd
  refine ⟨rfl, fun h0 => ?_⟩
  simp [mkDelta, changePctOf] at h0 ⊢
  simp [h0]

/-- C3 counterexample: an agent group whose reported mean `changePct`
is exactly −5 is labeled "Aggressive Decrease" by the code (the
strategy lambda tests `x > -5` strictly), not the claimed
"Moderate Decrease". -/
theorem c3_boundary_counterexample :
    ((analyze_ota_changes (compare_snapshots [obsOldX] [obsNewX])).map
        fun r => (r.avg_change_pct, r.pricing_strategy)) =
      [(PVal.fin (-5), "Aggressive Decrease")] ∧
    "Aggressive Decrease" ≠ "Moderate Decrease" := by
  rw [compare_single_eval, analyze_ota_single_eval]
  exact ⟨rfl, by simp⟩

/-- C3 (amended): for every agent group the `pricingStrategy` label is
a function of the group's reported (rounded) mean `changePct` `x`, with
"Aggressive Increase" iff x > 5, "Moderate Increase" iff 1 < x ≤ 5,
"Stable" iff |x| ≤ 1, "Moderate Decrease" iff −5 < x < −1 and
"Aggressive Decrease" iff x ≤ −5 — i.e. the boundary value −5 belongs
to "Aggressive Decrease", not "Moderate Decrease"; the label is
computed from the group mean, independently of the per-record
`change_type` buckets. -/
theorem c3_strategy_of_mean (ds : List DeltaRecord) (r : AgentRow)
    (hr : r ∈ analyze_ota_changes ds) (x : ℚ)
    (hx : r.avg_change_pct = .fin x) :
    r.pricing_strategy = pricing_strategy r.avg_change_pct ∧
    (r.pricing_strategy = "Aggressive Increase" ↔ 5 < x) ∧
    (r.pricing_strategy = "Moderate Increase" ↔ 1 < x ∧ x ≤ 5) ∧
    (r.pricing_strategy = "Stable" ↔ |x| ≤ 1) ∧
    (r.pricing_strategy = "Moderate Decrease" ↔ -5 < x ∧ x < -1) ∧
    (r.pricing_strategy = "Aggressive Decrease" ↔ x ≤ -5) := by
  obtain ⟨a, -, rfl⟩ := mem_analyze_ota hr
  have hfn : (mkAgentRow a (ds.filter fun d => decide (d.gate = a))).pricing_strategy =
      pricing_strategy
        ((mkAgentRow a (ds.filter fun d => decide (d.gate = a))).avg_change_pct) := rfl
  refine ⟨hfn, ?_, ?_, ?_, ?_, ?_⟩ <;>
    rw [hfn, hx] <;>
    simp only [pricing_strategy] <;>
    split_ifs <;>
    simp_all [abs_le] <;>
    (try constructor) <;>
    intros <;>
    linarith

/-- C3 amended-claim witness at the concrete single-group table. -/
theorem c3_strategy_of_mean_witness :
    rowX.pricing_strategy = pricing_strategy rowX.avg_change_pct ∧
    (rowX.pricing_strategy = "Aggressive Increase" ↔ 5 < (-5 : ℚ)) ∧
    (rowX.pricing_strategy = "Moderate Increase" ↔ 1 < (-5 : ℚ) ∧ (-5 : ℚ) ≤ 5) ∧
    (rowX.pricing_strategy = "Stable" ↔ |(-5 : ℚ)| ≤ 1) ∧
    (rowX.pricing_strategy = "Moderate Decrease" ↔ -5 < (-5 : ℚ) ∧ (-5 : ℚ) < -1) ∧
    (rowX.pricing_strategy = "Aggressive Decrease" ↔ (-5 : ℚ) ≤ -5) :=
  c3_strategy_of_mean [dX] rowX
    (by rw [analyze_ota_single_eval]; exact List.mem_singleton_self _) (-5) rfl

/-- C5: the code violates the spec's "Undefined bucket" policy: a
matched pair with `priceOld = 0` and `priceNew = 0` gets a NaN
`changePct` that `pd.cut` maps to the null/missing category
(`none`), not to a reserved sixth bucket, and a pair with
`priceOld = 0`, `priceNew > 0` gets `+inf`, which is silently
classified into the ordinary "Major Increase" bucket.  (No arithmetic
fault is raised — the embedding, like pandas, is total.) -/
theorem c5_undefined_bucket_bug :
    ((compare_snapshots [zOld] [zNewSame]).map
        fun d => (d.change_pct, d.change_type)) = [(PVal.nan, none)] ∧
    ((compare_snapshots [zOld] [zNewPos]).map
        fun d => (d.change_pct, d.change_type)) =
      [(PVal.posInf, some .majorIncrease)] := by
  constructor <;>
    norm_num [compare_snapshots, mkDelta, changePctOf, cutChange, Obs.key,
      zOld, zNewSame, zNewPos]

/-- C7 counterexample: a group with exactly one record reports a NaN
(missing) standard deviation — pandas' sample standard deviation with
`ddof = 1` — not zero, in both the agent and the route summaries. -/
theorem c7_single_member_counterexample :
    ((analyze_ota_changes (compare_snapshots [obsOldX] [obsNewX])).map
        fun r => (r.total_flights, r.std_price_diff)) = [(1, none)] ∧
    ((analyze_route_changes (compare_snapshots [obsOldX] [obsNewX])).map
        fun r => (r.total_flights, r.std_price_diff)) = [(1, none)] ∧
    (none : Option ℚ) ≠ some 0 := by
  rw [compare_single_eval, analyze_ota_single_eval, analyze_route_single_eval]
  exact ⟨rfl, rfl, by simp⟩

/-- C7 (amended): every group (agent or route) with exactly one record
reports an undefined (NaN, modelled `none`) standard deviation of
`priceDiff`, as pandas' sample standard deviation does, rather than
the zero the claim asserts. -/
theorem c7_single_member_std (ds : List DeltaRecord) :
    (∀ r ∈ analyze_ota_changes ds,
      r.total_flights = 1 → r.std_price_diff = none) ∧
    (∀ r ∈ analyze_route_changes ds,
      r.total_flights = 1 → r.std_price_diff = none) := by
  constructor
  · intro r hr h1
    obtain ⟨a, -, rfl⟩ := mem_analyze_ota hr
    simp only [mkAgentRow, List.length_map] at h1 ⊢
    rw [if_pos (by omega)]
  · intro r hr h1
    obtain ⟨rt, -, rfl⟩ := mem_analyze_route hr
    simp only [mkRouteRow, List.length_map] at h1 ⊢
    rw [if_pos (by omega)]

/-- C7 amended-claim witness at the concrete single-record table. -/
theorem c7_single_member_std_witness :
    rowX.std_price_diff = none ∧ routeRowX.std_price_diff = none :=
  ⟨(c7_single_member_std [dX]).1 rowX
      (by rw [analyze_ota_single_eval]; exact List.mem_singleton_self _) rfl,
    (c7_single_member_std [dX]).2 routeRowX
      (by rw [analyze_route_single_eval]; exact List.mem_singleton_self _) rfl⟩

/-- Second fixture key, disjoint from `obsOldX`'s key. -/
def obsOtherY : Obs := ⟨"IST", "BCN", "2025-07-02", "AgentZ", 200⟩

/-- C6: two non-empty snapshots sharing no FlightKey produce an empty
comparison table (not an error), and both aggregations of that empty
table are empty mappings with zero total count — every function
involved is total, so no exception or division by zero can occur. -/
theorem c6_disjoint_keys_empty (df1 df2 : List Obs)
    (h1 : df1 ≠ []) (h2 : df2 ≠ [])
    (hdisj : ∀ r2 ∈ df2, ∀ r1 ∈ df1, r1.key ≠ r2.key) :
    compare_snapshots df1 df2 = [] ∧
    analyze_ota_changes (compare_snapshots df1 df2) = [] ∧
    analyze_route_changes (compare_snapshots df1 df2) = [] ∧
    ((analyze_ota_changes (compare_snapshots df1 df2)).map
        (·.total_flights)).sum = 0 ∧
    ((analyze_route_changes (compare_snapshots df1 df2)).map
        (·.total_flights)).sum = 0 := by
  have hcmp : compare_snapshots df1 df2 = [] := by
    rw [compare_snapshots, List.flatMap_eq_nil_iff]
    intro r2 hr2
    rw [List.map_eq_nil_iff, List.filter_eq_nil_iff]
    intro r1 hr1
    simpa using hdisj r2 hr2 r1 hr1
  rw [hcmp]
  exact ⟨rfl, rfl, rfl, rfl, rfl⟩

/-- C6 witness: concrete disjoint single-row snapshots. -/
theorem c6_disjoint_keys_empty_witness :
    compare_snapshots [obsOldX] [obsOtherY] = [] ∧
    analyze_ota_changes (compare_snapshots [obsOldX] [obsOtherY]) = [] ∧
    analyze_route_changes (compare_snapshots [obsOldX] [obsOtherY]) = [] ∧
    ((analyze_ota_changes (compare_snapshots [obsOldX] [obsOtherY])).map
        (·.total_flights)).sum = 0 ∧
    ((analyze_route_changes (compare_snapshots [obsOldX] [obsOtherY])).map
        (·.total_flights)).sum = 0 :=
  c6_disjoint_keys_empty [obsOldX] [obsOtherY] (by simp) (by simp)
    (by
      intro r2 hr2 r1 hr1
      simp only [List.mem_singleton] at hr2 hr1
      subst hr2; subst hr1
      simp [obsOldX, obsOtherY, Obs.key])

/-- Sum over a Nodup key list of the sizes of the corresponding filter
groups, when every element's key occurs in the list, is the length. -/
theorem sum_group_sizes {α : Type} (ks : List String) (hk : ks.Nodup)
    (l : List α) (f : α → String) (hcov : ∀ x ∈ l, f x ∈ ks) :
    (ks.map fun a => (l.filter fun x => decide (f x = a)).length).sum =
      l.length := by
  induction l with
  | nil => simp
  | cons x l' ih =>
    have hx : f x ∈ ks := hcov x (List.mem_cons_self x l')
    have hsplit :
        (ks.map fun a =>
            (List.filter (fun y => decide (f y = a)) (x :: l')).length) =
          ks.map fun a =>
            ((if f x = a then 1 else 0) +
              (List.filter (fun y => decide (f y = a)) l').length) := by
      apply List.map_congr_left
      intro a _
      by_cases h : f x = a <;> simp [List.filter_cons, h, Nat.add_comm]
    rw [hsplit]
    have hadd : ∀ (g h : String → ℕ),
        (ks.map fun a => g a + h a).sum =
          (ks.map g).sum + (ks.map h).sum := by
      intro g h
      induction ks with
      | nil => simp
      | cons c ks' ihk => simp [ihk]; ring
    rw [hadd]
    have hone : ∀ (ks' : List String), ks'.Nodup → f x ∈ ks' →
        (ks'.map fun a => if f x = a then 1 else 0).sum = 1 := by
      intro ks' hks' hmem
      induction ks' with
      | nil => cases hmem
      | cons c t iht =>
        rcases List.mem_cons.mp hmem with hfc | ht
        · have hnot : ∀ a ∈ t, ¬ f x = a := by
            intro a ha hfa
            have hac : c = a := by rw [← hfc, hfa]
            exact (List.nodup_cons.mp hks').1 (by rw [hac]; exact ha)
          have : (t.map fun a => if f x = a then 1 else 0).sum = 0 := by
            apply List.sum_eq_zero
            intro n hn
            rw [List.mem_map] at hn
            obtain ⟨a, ha, rfl⟩ := hn
            simp [hnot a ha]
          simp [← hfc, this]
        · have hcne : ¬ f x = c := by
            intro hfc
            exact (List.nodup_cons.mp hks').1 (hfc ▸ ht)
          simp [hcne, iht (List.nodup_cons.mp hks').2 ht]
    rw [hone ks hk hx, ih fun y hy => hcov y (List.mem_cons_of_mem x hy)]
    simp [Nat.add_comm]

theorem groupKeys_nodup (l : List String) : (groupKeys l).Nodup :=
  ((List.perm_insertionSort (· ≤ ·) l.dedup).nodup_iff).mpr (List.nodup_dedup l)

theorem mem_groupKeys {l : List String} {a : String} :
    a ∈ groupKeys l ↔ a ∈ l := by
  rw [groupKeys, (List.perm_insertionSort (· ≤ ·) l.dedup).mem_iff,
    List.mem_dedup]

/-- C9: the per-group flight counts of both summary tables sum to the
number of DeltaRecords being aggregated. -/
theorem c9_counts_sum_to_length (ds : List DeltaRecord) :
    ((analyze_ota_changes ds).map (·.total_flights)).sum = ds.length ∧
    ((analyze_route_changes ds).map (·.total_flights)).sum = ds.length := by
  constructor
  · rw [analyze_ota_changes]
    rw [((List.perm_insertionSort agentOrder _).map (·.total_flights)).sum_eq]
    rw [List.map_map]
    have : ((fun r : AgentRow => r.total_flights) ∘ fun a =>
        mkAgentRow a (ds.filter fun d => decide (d.gate = a))) = fun a =>
        (ds.filter fun d => decide (d.gate = a)).length := by
      funext a
      simp [mkAgentRow]
    rw [this]
    exact sum_group_sizes _ (groupKeys_nodup _) ds (·.gate)
      fun d hd => mem_groupKeys.mpr (List.mem_map_of_mem (·.gate) hd)
  · rw [analyze_route_changes]
    rw [((List.perm_insertionSort routeOrder _).map (·.total_flights)).sum_eq]
    rw [List.map_map]
    have : ((fun r : RouteRow => r.total_flights) ∘ fun rt =>
        mkRouteRow rt (ds.filter fun d => decide (d.route = rt))) = fun rt =>
        (ds.filter fun d => decide (d.route = rt)).length := by
      funext rt
      simp [mkRouteRow]
    rw [this]
    exact sum_group_sizes _ (groupKeys_nodup _) ds (·.route)
      fun d hd => mem_groupKeys.mpr (List.mem_map_of_mem (·.route) hd)

/-- Round-half-to-even lands within half a unit of its argument. -/
theorem rhe_near (x : ℚ) : |(rhe x : ℚ) - x| ≤ 1 / 2 := by
  have hfl : (⌊x⌋ : ℚ) ≤ x := Int.floor_le x
  have hfu : x < ⌊x⌋ + 1 := Int.lt_floor_add_one x
  rw [rhe]
  split_ifs with h1 h2 h3 <;>
    rw [abs_le] <;>
    constructor <;>
    push_cast <;>
    linarith

/-- `round2` lands within half a hundredth, and returns a multiple of
`1/100`. -/
theorem round2_near (x : ℚ) :
    round2 x = ((rhe (100 * x) : ℚ)) / 100 ∧ |round2 x - x| ≤ 1 / 200 := by
  refine ⟨rfl, ?_⟩
  have h := rhe_near (100 * x)
  rw [round2]
  have : ((rhe (100 * x) : ℚ)) / 100 - x = ((rhe (100 * x) : ℚ) - 100 * x) / 100 := by
    ring
  rw [this, abs_div]
  rw [abs_of_pos (by norm_num : (0:ℚ) < 100)]
  linarith

/-- The sample variance is nonnegative on groups of two or more. -/
theorem svar_nonneg (l : List ℚ) (hl : 2 ≤ l.length) : 0 ≤ svar l := by
  rw [svar]
  apply div_nonneg
  · apply List.sum_nonneg
    intro x hx
    rw [List.mem_map] at hx
    obtain ⟨y, -, rfl⟩ := hx
    positivity
  · have h2 : (2 : ℚ) ≤ (l.length : ℚ) := by exact_mod_cast hl
    linarith

/-- The integer `rhesqrt w` is within half a unit of `√w`. -/
theorem rhesqrt_near (w : ℚ) (hw : 0 ≤ w) :
    |(rhesqrt w : ℝ) - Real.sqrt ((w : ℚ) : ℝ)| ≤ 1 / 2 := by
  set n : ℕ := Nat.sqrt ⌊w⌋.toNat with hn
  have h0 : (0 : ℤ) ≤ ⌊w⌋ := Int.floor_nonneg.mpr hw
  have htn : ((⌊w⌋.toNat : ℤ) : ℚ) ≤ w := by
    rw [Int.toNat_of_nonneg h0]
    exact Int.floor_le w
  have hn1q : ((n : ℚ)) ^ 2 ≤ w := by
    have hs : (n ^ 2 : ℕ) ≤ ⌊w⌋.toNat := Nat.sqrt_le' _
    calc ((n : ℚ)) ^ 2 = ((n ^ 2 : ℕ) : ℚ) := by push_cast; ring
      _ ≤ ((⌊w⌋.toNat : ℕ) : ℚ) := by exact_mod_cast hs
      _ ≤ w := by exact_mod_cast htn
  have hn2q : w < ((n : ℚ) + 1) ^ 2 := by
    have hs : ⌊w⌋.toNat < (n + 1) ^ 2 := by
      have := Nat.lt_succ_sqrt' ⌊w⌋.toNat
      simpa [hn, Nat.succ_eq_add_one] using this
    have hns : ((⌊w⌋.toNat : ℕ) : ℚ) + 1 ≤ (((n + 1) ^ 2 : ℕ) : ℚ) := by
      exact_mod_cast hs
    have hwlt : w < ((⌊w⌋.toNat : ℕ) : ℚ) + 1 := by
      rw [show (((⌊w⌋.toNat : ℕ) : ℚ)) = ((⌊w⌋ : ℤ) : ℚ) by exact_mod_cast Int.toNat_of_nonneg h0]
      exact Int.lt_floor_add_one w
    calc w < ((⌊w⌋.toNat : ℕ) : ℚ) + 1 := hwlt
      _ ≤ (((n + 1) ^ 2 : ℕ) : ℚ) := hns
      _ = ((n : ℚ) + 1) ^ 2 := by push_cast; ring
  have hwR : (0 : ℝ) ≤ ((w : ℚ) : ℝ) := by exact_mod_cast hw
  have hn1 : ((n : ℝ)) ^ 2 ≤ ((w : ℚ) : ℝ) := by exact_mod_cast hn1q
  have hn2 : ((w : ℚ) : ℝ) < ((n : ℝ) + 1) ^ 2 := by exact_mod_cast hn2q
  have hs1 : (n : ℝ) ≤ Real.sqrt ((w : ℚ) : ℝ) :=
    (Real.le_sqrt (by positivity) hwR).mpr hn1
  have hs2 : Real.sqrt ((w : ℚ) : ℝ) < (n : ℝ) + 1 :=
    (Real.sqrt_lt' (by positivity)).mpr hn2
  rw [rhesqrt, ← hn]
  split_ifs with h1 h2 h3
  · have hq : ((w : ℚ) : ℝ) < ((n : ℝ) + 1 / 2) ^ 2 := by
      have : (4 : ℚ) * w < ((2 * n + 1 : ℕ) : ℚ) ^ 2 := h1
      have hr : (4 : ℝ) * ((w : ℚ) : ℝ) < (2 * (n : ℝ) + 1) ^ 2 := by
        exact_mod_cast this
      nlinarith [hr]
    have hlt : Real.sqrt ((w : ℚ) : ℝ) < (n : ℝ) + 1 / 2 :=
      (Real.sqrt_lt' (by positivity)).mpr hq
    rw [abs_le]
    constructor <;> push_cast <;> linarith
  · have hq : ((n : ℝ) + 1 / 2) ^ 2 < ((w : ℚ) : ℝ) := by
      have : ((2 * n + 1 : ℕ) : ℚ) ^ 2 < (4 : ℚ) * w := h2
      have hr : (2 * (n : ℝ) + 1) ^ 2 < (4 : ℝ) * ((w : ℚ) : ℝ) := by
        exact_mod_cast this
      nlinarith [hr]
    have hlt : (n : ℝ) + 1 / 2 < Real.sqrt ((w : ℚ) : ℝ) :=
      (Real.lt_sqrt (by positivity)).mpr hq
    rw [abs_le]
    constructor <;> push_cast <;> linarith
  · have heq : ((w : ℚ) : ℝ) = ((n : ℝ) + 1 / 2) ^ 2 := by
      have h4 : (4 : ℚ) * w = ((2 * n + 1 : ℕ) : ℚ) ^ 2 := le_antisymm (not_lt.mp h2) (not_lt.mp h1)
      have hr : (4 : ℝ) * ((w : ℚ) : ℝ) = (2 * (n : ℝ) + 1) ^ 2 := by
        exact_mod_cast h4
      nlinarith [hr]
    have hsq : Real.sqrt ((w : ℚ) : ℝ) = (n : ℝ) + 1 / 2 := by
      rw [heq, Real.sqrt_sq (by positivity)]
    rw [hsq, abs_le]
    constructor <;> push_cast <;> linarith
  · have heq : ((w : ℚ) : ℝ) = ((n : ℝ) + 1 / 2) ^ 2 := by
      have h4 : (4 : ℚ) * w = ((2 * n + 1 : ℕ) : ℚ) ^ 2 := le_antisymm (not_lt.mp h2) (not_lt.mp h1)
      have hr : (4 : ℝ) * ((w : ℚ) : ℝ) = (2 * (n : ℝ) + 1) ^ 2 := by
        exact_mod_cast h4
      nlinarith [hr]
    have hsq : Real.sqrt ((w : ℚ) : ℝ) = (n : ℝ) + 1 / 2 := by
      rw [heq, Real.sqrt_sq (by positivity)]
    rw [hsq, abs_le]
    constructor <;> push_cast <;> linarith

/-- C10: every summary row's numeric statistics are the
two-decimal-place roundings of the exact group aggregates (the `.agg`
result is passed through `.round(2)`): the mean of `priceDiff`, the
NaN-skipping mean/min/max of `changePct` and the mean current price are
`round2` of the exact values, the standard deviation is the nearest
multiple of `1/100` to the exact sample standard deviation
`√(svar)` (and NaN for a single-member group), and — decisively — the
`pricingStrategy` label is computed from the already-rounded mean
(`r.avg_change_pct`), so an exact mean of `5.004`, which rounds to
`5.0`, is labeled "Moderate Increase" although the unrounded mean would
give "Aggressive Increase". -/
theorem c10_rounded_stats (ds : List DeltaRecord) :
    (∀ r ∈ analyze_ota_changes ds, ∃ a, a ∈ ds.map (·.gate) ∧
      r.total_flights = (ds.filter fun d => decide (d.gate = a)).length ∧
      r.avg_price_diff = round2 (meanQ
        ((ds.filter fun d => decide (d.gate = a)).map (·.price_diff))) ∧
      r.avg_change_pct = round2P (meanP
        ((ds.filter fun d => decide (d.gate = a)).map (·.change_pct))) ∧
      r.min_change_pct = round2P (minP
        ((ds.filter fun d => decide (d.gate = a)).map (·.change_pct))) ∧
      r.max_change_pct = round2P (maxP
        ((ds.filter fun d => decide (d.gate = a)).map (·.change_pct))) ∧
      r.avg_current_price = round2 (meanQ
        ((ds.filter fun d => decide (d.gate = a)).map (·.price_eur_new))) ∧
      r.pricing_strategy = pricing_strategy r.avg_change_pct ∧
      (r.total_flights < 2 → r.std_price_diff = none) ∧
      (2 ≤ r.total_flights → ∃ k : ℤ,
        r.std_price_diff = some ((k : ℚ) / 100) ∧
        |(k : ℝ) - 100 * Real.sqrt ((svar
            ((ds.filter fun d => decide (d.gate = a)).map (·.price_diff)) : ℚ) : ℝ)|
          ≤ 1 / 2)) ∧
    (∀ r ∈ analyze_route_changes ds, ∃ rt, rt ∈ ds.map (·.route) ∧
      r.total_flights = (ds.filter fun d => decide (d.route = rt)).length ∧
      r.avg_price_diff = round2 (meanQ
        ((ds.filter fun d => decide (d.route = rt)).map (·.price_diff))) ∧
      r.avg_change_pct = round2P (meanP
        ((ds.filter fun d => decide (d.route = rt)).map (·.change_pct))) ∧
      r.min_change_pct = round2P (minP
        ((ds.filter fun d => decide (d.route = rt)).map (·.change_pct))) ∧
      r.max_change_pct = round2P (maxP
        ((ds.filter fun d => decide (d.route = rt)).map (·.change_pct))) ∧
      (r.total_flights < 2 → r.std_price_diff = none) ∧
      (2 ≤ r.total_flights → ∃ k : ℤ,
        r.std_price_diff = some ((k : ℚ) / 100) ∧
        |(k : ℝ) - 100 * Real.sqrt ((svar
            ((ds.filter fun d => decide (d.route = rt)).map (·.price_diff)) : ℚ) : ℝ)|
          ≤ 1 / 2)) ∧
    (∀ x : ℚ, ∃ k : ℤ, round2 x = (k : ℚ) / 100 ∧ |round2 x - x| ≤ 1 / 200) ∧
    pricing_strategy (round2P (.fin (5004 / 1000))) = "Moderate Increase" ∧
    pricing_strategy (.fin (5004 / 1000)) = "Aggressive Increase" := by
  have hstd : ∀ l : List ℚ, 2 ≤ l.length → ∃ k : ℤ,
      (round2sqrt (svar l) : ℚ) = (k : ℚ) / 100 ∧
      |(k : ℝ) - 100 * Real.sqrt ((svar l : ℚ) : ℝ)| ≤ 1 / 2 := by
    intro l hl
    refine ⟨rhesqrt (10000 * svar l), rfl, ?_⟩
    have hv : 0 ≤ svar l := svar_nonneg l hl
    have hnear := rhesqrt_near (10000 * svar l) (by positivity)
    have hcast : ((10000 * svar l : ℚ) : ℝ) = 10000 * ((svar l : ℚ) : ℝ) := by
      push_cast
      ring
    rw [hcast] at hnear
    have hsqrt : Real.sqrt (10000 * ((svar l : ℚ) : ℝ)) =
        100 * Real.sqrt ((svar l : ℚ) : ℝ) := by
      rw [show (10000 : ℝ) * ((svar l : ℚ) : ℝ) = 100 ^ 2 * ((svar l : ℚ) : ℝ) by ring,
        Real.sqrt_mul (by positivity), Real.sqrt_sq (by norm_num : (0:ℝ) ≤ 100)]
    rw [hsqrt] at hnear
    exact hnear
  refine ⟨?_, ?_, ?_, ?_, ?_⟩
  · intro r hr
    obtain ⟨a, ha, rfl⟩ := mem_analyze_ota hr
    refine ⟨a, ha, by simp [mkAgentRow], rfl, rfl, rfl, rfl, rfl, rfl, ?_, ?_⟩
    · intro h
      simp only [mkAgentRow, List.length_map] at h ⊢
      rw [if_pos h]
    · intro h
      simp only [mkAgentRow, List.length_map] at h ⊢
      rw [if_neg (by omega)]
      obtain ⟨k, hk1, hk2⟩ :=
        hstd ((ds.filter fun d => decide (d.gate = a)).map (·.price_diff))
          (by simpa using h)
      exact ⟨k, by rw [hk1], hk2⟩
  · intro r hr
    obtain ⟨rt, hrt, rfl⟩ := mem_analyze_route hr
    refine ⟨rt, hrt, by simp [mkRouteRow], rfl, rfl, rfl, rfl, ?_, ?_⟩
    · intro h
      simp only [mkRouteRow, List.length_map] at h ⊢
      rw [if_pos h]
    · intro h
      simp only [mkRouteRow, List.length_map] at h ⊢
      rw [if_neg (by omega)]
      obtain ⟨k, hk1, hk2⟩ :=
        hstd ((ds.filter fun d => decide (d.route = rt)).map (·.price_diff))
          (by simpa using h)
      exact ⟨k, by rw [hk1], hk2⟩
  · intro x
    exact ⟨rhe (100 * x), (round2_near x).1, (round2_near x).2⟩
  · norm_num [round2P, round2, rhe, pricing_strategy, Int.fract]
  · norm_num [pricing_strategy]

/-- C10 witness at the concrete single-group table. -/
theorem c10_rounded_stats_witness :
    rowX.avg_price_diff = round2 (meanQ
      (([dX].filter fun d => decide (d.gate = "AgentX")).map (·.price_diff))) ∧
    rowX.pricing_strategy = pricing_strategy rowX.avg_change_pct := by
  obtain ⟨a, ha, h⟩ := (c10_rounded_stats [dX]).1 rowX
    (by rw [analyze_ota_single_eval]; exact List.mem_singleton_self _)
  have ha' : a = "AgentX" := by simpa [dX] using ha
  subst ha'
  exact ⟨h.2.1, h.2.2.2.2.2.2.1⟩

/-- C4 witness at the concrete matched pair. -/
theorem c4_delta_arithmetic_witness :
    dX.price_diff = dX.price_eur_new - dX.price_eur_old ∧
      (dX.price_eur_old ≠ 0 →
        dX.change_pct = .fin (dX.price_diff / dX.price_eur_old * 100)) :=
  c4_delta_arithmetic [obsOldX] [obsNewX] dX
    (by rw [compare_single_eval]; exact List.mem_singleton_self _)
